import Mathlib

/-!
Verification of the Roxy-v2 repository against its design specification.

Part A embeds the frontend source that is present in the repository:
`SettingsContext.tsx` (settings loading and validation) and
`AudioProcessor.ts` (lip-sync state). JavaScript runtime values reaching
these functions are modelled by an inductive `JValue` type (JSON values;
`Option JValue` models a possibly-`undefined` field), and JS numbers by `ℚ`
(JSON.parse never yields NaN or infinities, so every number reaching the
validators is finite).

Part B models the autonomous-execution core (Event, Mailbox, Budget
Tracker, Context Buffer and compression, Tool Executor). That core is
described in detail by the specification but its implementation is not
among the repository's source files, so each of its definitions is
modelled from the spec, as recorded in the doc comments.
-/

namespace Nakari

/-- A JSON value as produced by `JSON.parse`. -/
inductive JValue where
  | null : JValue
  | bool (b : Bool) : JValue
  | num (q : ℚ) : JValue
  | str (s : String) : JValue
  | arr (elems : List JValue) : JValue
  | obj (fields : List (String × JValue)) : JValue
deriving Repr

/-- JS property access `v.k`: defined on objects, `undefined` (`none`)
otherwise. Arrays also have `typeof 'object'` but named property access on
them yields `undefined` for the keys used here. -/
def jget (v : JValue) (k : String) : Option JValue :=
  match v with
  | JValue.obj fields => fields.lookup k
  | _ => none

/-- The test `typeof data === 'object' && data !== null` from
`SettingsContext.tsx`: true for objects and arrays, false for null and
every primitive. -/
def jsObjectLike : JValue → Bool
  | JValue.obj _ => true
  | JValue.arr _ => true
  | _ => false

/-- `GeneralSettings.theme` domain (`'light' | 'dark'`). -/
inductive Theme where
  | light : Theme
  | dark : Theme
deriving DecidableEq, Repr

/-- `GeneralSettings.language` domain (`'en' | 'zh' | 'ja'`). -/
inductive Lang where
  | en : Lang
  | zh : Lang
  | ja : Lang
deriving DecidableEq, Repr

/-- `Live2DSettings` from `SettingsContext.tsx`. -/
structure Live2DSettings where
  model : String
  modelScale : ℚ
  positionX : ℚ
  positionY : ℚ
  idleMotion : Bool
  breathingAnimation : Bool
deriving DecidableEq, Repr

/-- `AudioSettings` from `SettingsContext.tsx`. -/
structure AudioSettings where
  ttsVolume : ℚ
  micSensitivity : ℚ
  lipSync : Bool
  enableAudio : Bool
deriving DecidableEq, Repr

/-- `GeneralSettings` from `SettingsContext.tsx`. -/
structure GeneralSettings where
  theme : Theme
  language : Lang
  autoScrollChat : Bool
deriving DecidableEq, Repr

/-- `AdvancedSettings` from `SettingsContext.tsx`. -/
structure AdvancedSettings where
  debugMode : Bool
  showThoughts : Bool
deriving DecidableEq, Repr

/-- `AppSettings` from `SettingsContext.tsx`. -/
structure AppSettings where
  live2d : Live2DSettings
  audio : AudioSettings
  general : GeneralSettings
  advanced : AdvancedSettings
deriving DecidableEq, Repr

/-- `defaultSettings` from `SettingsContext.tsx` (lines 43-67). -/
def defaultSettings : AppSettings :=
  { live2d :=
      { model := "xiaomai", modelScale := 1, positionX := 0, positionY := 0,
        idleMotion := true, breathingAnimation := true },
    audio :=
      { ttsVolume := 4/5, micSensitivity := 7/10, lipSync := true,
        enableAudio := true },
    general :=
      { theme := Theme.dark, language := Lang.en, autoScrollChat := true },
    advanced := { debugMode := false, showThoughts := false } }

/-- Valid model identifiers (`validModels` in `validateLive2DSettings`). -/
def validModels : List String := ["xiaomai", "miku", "22_high", "33_high"]

/-- The repeated source pattern
`typeof x === 'number' && x >= lo && x <= hi ? x : dflt`. -/
def numField (lo hi dflt : ℚ) (x : Option JValue) : ℚ :=
  match x with
  | some (JValue.num q) => if lo ≤ q ∧ q ≤ hi then q else dflt
  | _ => dflt

/-- The repeated source pattern `typeof x === 'boolean' ? x : dflt`. -/
def boolField (dflt : Bool) (x : Option JValue) : Bool :=
  match x with
  | some (JValue.bool b) => b
  | _ => dflt

/-- `validateLive2DSettings` from `SettingsContext.tsx` (lines 102-123).
The argument is `none` when the field was absent (`undefined` in JS). -/
def validateLive2DSettings : Option JValue → Live2DSettings
  | some v =>
    if jsObjectLike v then
      { model :=
          (match jget v "model" with
           | some (JValue.str s) => if validModels.contains s then s else "xiaomai"
           | _ => "xiaomai"),
        modelScale := numField (1/2) 2 1 (jget v "modelScale"),
        positionX := numField (-(1/2)) (1/2) 0 (jget v "positionX"),
        positionY := numField (-(1/2)) (1/2) 0 (jget v "positionY"),
        idleMotion := boolField true (jget v "idleMotion"),
        breathingAnimation := boolField true (jget v "breathingAnimation") }
    else defaultSettings.live2d
  | none => defaultSettings.live2d

/-- `validateAudioSettings` from `SettingsContext.tsx` (lines 126-139). -/
def validateAudioSettings : Option JValue → AudioSettings
  | some v =>
    if jsObjectLike v then
      { ttsVolume := numField 0 1 (4/5) (jget v "ttsVolume"),
        micSensitivity := numField 0 1 (7/10) (jget v "micSensitivity"),
        lipSync := boolField true (jget v "lipSync"),
        enableAudio := boolField true (jget v "enableAudio") }
    else defaultSettings.audio
  | none => defaultSettings.audio

/-- `validateGeneralSettings` from `SettingsContext.tsx` (lines 142-153);
`isValidTheme` and `isValidLanguage` only accept the exact strings, so any
other runtime value falls back to the default. -/
def validateGeneralSettings : Option JValue → GeneralSettings
  | some v =>
    if jsObjectLike v then
      { theme :=
          (match jget v "theme" with
           | some (JValue.str "light") => Theme.light
           | some (JValue.str "dark") => Theme.dark
           | _ => defaultSettings.general.theme),
        language :=
          (match jget v "language" with
           | some (JValue.str "en") => Lang.en
           | some (JValue.str "zh") => Lang.zh
           | some (JValue.str "ja") => Lang.ja
           | _ => defaultSettings.general.language),
        autoScrollChat := boolField true (jget v "autoScrollChat") }
    else defaultSettings.general
  | none => defaultSettings.general

/-- `validateAdvancedSettings` from `SettingsContext.tsx` (lines 156-166). -/
def validateAdvancedSettings : Option JValue → AdvancedSettings
  | some v =>
    if jsObjectLike v then
      { debugMode := boolField false (jget v "debugMode"),
        showThoughts := boolField false (jget v "showThoughts") }
    else defaultSettings.advanced
  | none => defaultSettings.advanced

/-- `loadSettings` from `SettingsContext.tsx` (lines 169-189). The input
models the persisted state: `none` is a missing/empty stored item, `some
none` a stored string on which `JSON.parse` throws (the exception is
caught and the defaults returned), `some (some v)` a successful parse. -/
def loadSettings : Option (Option JValue) → AppSettings
  | some (some parsed) =>
    if jsObjectLike parsed then
      { live2d := validateLive2DSettings (jget parsed "live2d"),
        audio := validateAudioSettings (jget parsed "audio"),
        general := validateGeneralSettings (jget parsed "general"),
        advanced := validateAdvancedSettings (jget parsed "advanced") }
    else defaultSettings
  | some none => defaultSettings
  | none => defaultSettings

/-- The validity predicate of claim C9: every range-constrained field of
the settings is inside its documented range. (`theme`, `language` and the
boolean fields are valid by type.) -/
def settingsValid (s : AppSettings) : Prop :=
  validModels.contains s.live2d.model = true ∧
  1/2 ≤ s.live2d.modelScale ∧ s.live2d.modelScale ≤ 2 ∧
  -(1/2) ≤ s.live2d.positionX ∧ s.live2d.positionX ≤ 1/2 ∧
  -(1/2) ≤ s.live2d.positionY ∧ s.live2d.positionY ≤ 1/2 ∧
  0 ≤ s.audio.ttsVolume ∧ s.audio.ttsVolume ≤ 1 ∧
  0 ≤ s.audio.micSensitivity ∧ s.audio.micSensitivity ≤ 1

instance (s : AppSettings) : Decidable (settingsValid s) := by
  unfold settingsValid; infer_instance

/-- State of the `AudioProcessor` class (`AudioProcessor.ts`), restricted
to the fields that `updateLipSync` and `stop` read or write. -/
structure AudioState where
  mouthParam : ℚ
  isPlaying : Bool
  animationFrameId : Option Nat
  stopPending : Bool
  hasSource : Bool
deriving DecidableEq, Repr

/-- `clamp01`: the source's `Math.max(0, Math.min(1, x))`. -/
def clamp01 (q : ℚ) : ℚ := max 0 (min 1 q)

/-- The average over the first 30 frequency bins
(`dataArray.slice(0, 30)`, byte values), as in `updateLipSync`. -/
def speechAverage (freqData : List Nat) : ℚ :=
  let taken := freqData.take 30
  (taken.sum : ℚ) / (taken.length : ℚ)

/-- One step of `updateLipSync` (`AudioProcessor.ts` lines 113-143):
guard on `isPlaying`, compute the clamped target `min(average/100, 1)`,
move the mouth parameter 30% toward it, clamp to `[0, 1]`, notify the
callback, and schedule the next frame. The second component collects the
values passed to `onMouthParamChange`; `frame` is the id handed out by
`requestAnimationFrame`. -/
def updateLipSync (st : AudioState) (freqData : List Nat) (frame : Nat) :
    AudioState × List ℚ :=
  if st.isPlaying then
    let target := min (speechAverage freqData / 100) 1
    let moved := st.mouthParam + (target - st.mouthParam) * (3/10)
    let m := clamp01 moved
    ({ st with mouthParam := m, animationFrameId := some frame }, [m])
  else (st, [])

/-- `stop` (`AudioProcessor.ts` lines 148-176): set `stopPending`, clear
`isPlaying`, cancel the animation frame, drop the source, reset the mouth
parameter to 0 and notify the callback with 0. -/
def audioStop (st : AudioState) : AudioState × List ℚ :=
  ({ st with stopPending := true, isPlaying := false,
             animationFrameId := none, hasSource := false, mouthParam := 0 },
   [0])

/-- Modelled from the spec: the error taxonomy of §7. -/
inductive Err where
  | ValidationError : Err
  | UnknownTool : Err
  | BudgetExceeded : Err
  | EngineError : Err
  | HandlerError : Err
  | InvalidState : Err
  | NotFound : Err
  | Empty : Err
deriving DecidableEq, Repr

/-- Modelled from the spec: Event status (§3). `suspend()` transitions an
active Event "back to pending" (§4.1), so the `suspended` tag exists in
the status vocabulary but the pending list is where suspended work waits. -/
inductive Status where
  | pending : Status
  | active : Status
  | suspended : Status
  | done : Status
deriving DecidableEq, Repr

/-- Modelled from the spec: the Event data entity (§3). `created_at` is
the creation sequence number used for FIFO ordering within a priority
tier; `metadata` is the open key→value mapping. -/
structure Event where
  id : Nat
  typ : String
  content : String
  max_actions : Nat
  priority : Int
  metadata : List (String × String)
  status : Status
  created_at : Nat
  updated_at : Nat
  progress_note : Option String
deriving DecidableEq, Repr

/-- Modelled from the spec: the Mailbox's internal table (§4.1, §5).
`events` is kept ordered by priority (higher first) then creation order;
`active_id`/`action_count` are the single active slot and its per-Event
action counter (§4.2); `archive` is the append-only log of archived done
Events (§3 lifecycle). The spec requires all state transitions to be
serialized (§5), so each operation below is one atomic step. -/
structure MailboxState where
  events : List Event
  next_id : Nat
  next_seq : Nat
  active_id : Option Nat
  action_count : Nat
  archive : List Nat
deriving DecidableEq, Repr

/-- The empty Mailbox. -/
def initState : MailboxState :=
  { events := [], next_id := 0, next_seq := 0, active_id := none,
    action_count := 0, archive := [] }

/-- Insertion keeping the order of §4.1: higher priority first, FIFO
(creation order) within a priority tier. -/
def insertOrdered (e : Event) : List Event → List Event
  | [] => [e]
  | x :: xs =>
    if e.priority > x.priority ∨
       (e.priority = x.priority ∧ e.created_at < x.created_at) then
      e :: x :: xs
    else x :: insertOrdered e xs

/-- Look up an Event by id in the table. -/
def findEvent (s : MailboxState) (i : Nat) : Option Event :=
  s.events.find? (fun e => e.id == i)

/-- Apply `f` to the Event with id `i`, leaving the rest in place. -/
def mapEvent (i : Nat) (f : Event → Event) (l : List Event) : List Event :=
  l.map (fun e => if e.id = i then f e else e)

/-- Modelled from the spec: `enqueue(event) -> id` (§4.1): requires
`max_actions > 0` and non-empty content; assigns a fresh id, sets
status=pending, inserts ordered by priority then creation order. -/
def enqueue (s : MailboxState) (typ content : String) (max_actions : Nat)
    (priority : Int) (metadata : List (String × String)) :
    Except Err (Nat × MailboxState) :=
  if max_actions = 0 then Except.error Err.ValidationError
  else if content = "" then Except.error Err.ValidationError
  else
    let e : Event :=
      { id := s.next_id, typ := typ, content := content,
        max_actions := max_actions, priority := priority,
        metadata := metadata, status := Status.pending,
        created_at := s.next_seq, updated_at := s.next_seq,
        progress_note := none }
    Except.ok (s.next_id,
      { s with events := insertOrdered e s.events,
               next_id := s.next_id + 1, next_seq := s.next_seq + 1 })

/-- Modelled from the spec: `pick() -> Event` (§4.1): atomically selects
the highest-priority pending Event (the first pending entry of the
ordered table), transitions it to active, resets the action counter to 0;
fails Empty if none is pending and none active. A `pick()` while an
Event is already active is an illegal transition (it would break the
single-active invariant of §3) and fails InvalidState. -/
def pick (s : MailboxState) : Except Err (Event × MailboxState) :=
  match s.active_id with
  | some _ => Except.error Err.InvalidState
  | none =>
    match s.events.find? (fun e => e.status == Status.pending) with
    | none => Except.error Err.Empty
    | some e =>
      let e' := { e with status := Status.active }
      Except.ok (e',
        { s with events := mapEvent e.id (fun x => { x with status := Status.active }) s.events,
                 active_id := some e.id, action_count := 0 })

/-- Modelled from the spec: `done(id) -> ok` (§4.1): transitions the
active Event with this id to done, archives it (append-only), clears the
active slot; fails InvalidState if id is not the current active Event. -/
def mdone (s : MailboxState) (i : Nat) : Except Err MailboxState :=
  if s.active_id = some i then
    Except.ok
      { s with events := mapEvent i (fun x => { x with status := Status.done }) s.events,
               active_id := none, archive := s.archive ++ [i] }
  else Except.error Err.InvalidState

/-- Modelled from the spec: `suspend(id, progress_note) -> ok` (§4.1):
transitions the active Event back to pending, stores the progress note
(§3's `progress_note`, retrievable from the Event's open metadata map per
the spec's test property), clears the active slot; fails InvalidState if
id is not the current active Event. -/
def msuspend (s : MailboxState) (i : Nat) (note : String) :
    Except Err MailboxState :=
  if s.active_id = some i then
    Except.ok
      { s with
          events := mapEvent i (fun x =>
            { x with status := Status.pending,
                     progress_note := some note,
                     metadata := ("progress_note", note) :: x.metadata.filter (fun kv => kv.1 != "progress_note") }) s.events,
          active_id := none }
  else Except.error Err.InvalidState

/-- Fields mergeable by `update` (§4.1: content/priority/metadata/status).
A status merge may only move between the non-active, non-done waiting
states (§3 allows no other externally forced transition). -/
structure UpdateFields where
  content : Option String
  priority : Option Int
  metadata : Option (List (String × String))
  status : Option Status
deriving DecidableEq, Repr

/-- Modelled from the spec: `update(id, fields) -> ok` (§4.1): fails
NotFound if id is unknown; fails InvalidState if the Event is done
(done Events are immutable, §3) or if the status merge would break §3's
transition rule (activation and completion happen only through
`pick()`/`done()`/`suspend()`, which also maintain the active slot, so a
merge may neither forge an active/done status nor move an active Event);
otherwise merges the fields, bumps `updated_at`, and re-inserts to keep
the priority order. -/
def update (s : MailboxState) (i : Nat) (f : UpdateFields) :
    Except Err MailboxState :=
  match findEvent s i with
  | none => Except.error Err.NotFound
  | some e =>
    if e.status = Status.done then Except.error Err.InvalidState
    else if f.status = some Status.active ∨ f.status = some Status.done then
      Except.error Err.InvalidState
    else if e.status = Status.active ∧ f.status.isSome then
      Except.error Err.InvalidState
    else
      let e' : Event :=
        { e with content := f.content.getD e.content,
                 priority := f.priority.getD e.priority,
                 metadata := f.metadata.getD e.metadata,
                 status := f.status.getD e.status,
                 updated_at := s.next_seq }
      Except.ok
        { s with events := insertOrdered e' (s.events.filter (fun x => x.id != i)),
                 next_seq := s.next_seq + 1 }

/-- Modelled from the spec: `delete(id) -> ok` (§4.1): allowed only for
pending/suspended Events; fails InvalidState if the Event is active (or
done, which is immutable); NotFound if the id is unknown. -/
def mdelete (s : MailboxState) (i : Nat) : Except Err MailboxState :=
  match findEvent s i with
  | none => Except.error Err.NotFound
  | some e =>
    match e.status with
    | Status.pending => Except.ok { s with events := s.events.filter (fun x => x.id != i) }
    | Status.suspended => Except.ok { s with events := s.events.filter (fun x => x.id != i) }
    | _ => Except.error Err.InvalidState

/-- Number of Events with status=active in the table. -/
def activeCount (s : MailboxState) : Nat :=
  (s.events.filter (fun e => e.status = Status.active)).length

/-- Well-formedness of a Mailbox state, as a decidable check: ids are
unique and below `next_id`, and the active slot is coherent — if it is
empty no Event is active, and if it holds id `i` then exactly the Event
with id `i` is active. -/
def wf (s : MailboxState) : Bool :=
  decide (s.events.map Event.id).Nodup &&
  s.events.all (fun e => decide (e.id < s.next_id)) &&
  (match s.active_id with
   | none => s.events.all (fun e => e.status != Status.active)
   | some i =>
     s.events.all (fun e => !(e.status == Status.active) || e.id == i) &&
     s.events.any (fun e => e.id == i && e.status == Status.active))

/-- The Event currently in the active slot, if any. -/
def activeEvent (s : MailboxState) : Option Event :=
  match s.active_id with
  | some i => findEvent s i
  | none => none

/-- Modelled from the spec: Budget Tracker `increment()` (§4.2): succeeds
and advances the active Event's action counter while it is below
`max_actions`; otherwise fails BudgetExceeded (recoverable). -/
def increment (s : MailboxState) : Except Err MailboxState :=
  match activeEvent s with
  | none => Except.error Err.InvalidState
  | some e =>
    if s.action_count < e.max_actions then
      Except.ok { s with action_count := s.action_count + 1 }
    else Except.error Err.BudgetExceeded

/-- The budget invariant of §8: whenever an Event is active, its action
counter is at most its `max_actions`. -/
def budgetOk (s : MailboxState) : Bool :=
  match activeEvent s with
  | some e => decide (s.action_count ≤ e.max_actions)
  | none => true

/-- Modelled from the spec: a structured Result of action dispatch (§4.4,
§7) — either a success payload or a structured error, never an exception. -/
inductive Result where
  | ok (output : String) : Result
  | err (kind : Err) (detail : String) : Result
deriving DecidableEq, Repr

/-- Modelled from the spec: a registered tool of the Tool Executor (§4.4):
a name, an argument schema (required argument keys), and a handler that
may fail (`Except.error` models a raised exception). -/
structure ToolSpec where
  name : String
  required_args : List String
  handler : List (String × String) → Except String String

/-- Schema validation: every required argument key is present. -/
def validateArgs (t : ToolSpec) (args : List (String × String)) : Bool :=
  t.required_args.all (fun k => (args.lookup k).isSome)

/-- Modelled from the spec: `dispatch(action) -> Result` (§4.4),
instrumented with a flag recording whether the handler was invoked.
Unknown action name → UnknownTool Result, handler not invoked; schema
validation failure → ValidationError Result, handler not invoked; a
handler fault is caught and converted to a HandlerError Result. -/
def dispatchTrace (tools : List ToolSpec) (name : String)
    (args : List (String × String)) : Result × Bool :=
  match tools.find? (fun t => t.name == name) with
  | none => (Result.err Err.UnknownTool name, false)
  | some t =>
    if validateArgs t args then
      match t.handler args with
      | Except.ok out => (Result.ok out, true)
      | Except.error msg => (Result.err Err.HandlerError msg, true)
    else (Result.err Err.ValidationError name, false)

/-- `dispatch` proper: the Result component of `dispatchTrace`. -/
def dispatch (tools : List ToolSpec) (name : String)
    (args : List (String × String)) : Result :=
  (dispatchTrace tools name args).1

/-- Modelled from the spec: one action request returned by the reasoning
engine (§4.5): an ordinary named action, or one of the administrative
actions complete / suspend. -/
inductive ActionReq where
  | ordinary (name : String) (args : List (String × String)) : ActionReq
  | complete : ActionReq
  | suspendReq (note : String) : ActionReq

/-- Administrative actions are complete and suspend (§4.2). -/
def isAdministrative : ActionReq → Bool
  | ActionReq.ordinary _ _ => false
  | _ => true

/-- Modelled from the spec: executing one action request (§4.5 step 3):
administrative actions run regardless of budget state; an ordinary action
first calls `increment()` and, if the budget is exhausted, a structured
error Result is synthesized without dispatching. -/
def execAction (tools : List ToolSpec) (s : MailboxState) (a : ActionReq) :
    Result × MailboxState :=
  match a with
  | ActionReq.complete =>
    match s.active_id with
    | some i =>
      match mdone s i with
      | Except.ok s' => (Result.ok "completed", s')
      | Except.error e => (Result.err e "complete", s)
    | none => (Result.err Err.InvalidState "complete", s)
  | ActionReq.suspendReq note =>
    match s.active_id with
    | some i =>
      match msuspend s i note with
      | Except.ok s' => (Result.ok "suspended", s')
      | Except.error e => (Result.err e "suspend", s)
    | none => (Result.err Err.InvalidState "suspend", s)
  | ActionReq.ordinary name args =>
    match increment s with
    | Except.ok s' => (dispatch tools name args, s')
    | Except.error e => (Result.err e name, s)

/-- Modelled from the spec: executing one engine response's action
requests strictly in order (§4.5 step 3), collecting the Results in
request order. -/
def execBatch (tools : List ToolSpec) :
    MailboxState → List ActionReq → MailboxState × List Result
  | s, [] => (s, [])
  | s, a :: rest =>
    let p := execAction tools s a
    let q := execBatch tools p.2 rest
    (q.1, p.1 :: q.2)

/-- Modelled from the spec: a ContextEntry (§3) — a message (with a
pinned-preamble flag), an action-request, or an action-result; paired
request/result entries share `call_id`. Each entry carries its token
estimate. -/
inductive ContextEntry where
  | message (pinned : Bool) (tokens : Nat) (text : String) : ContextEntry
  | action_request (call_id : Nat) (tokens : Nat) : ContextEntry
  | action_result (call_id : Nat) (tokens : Nat) : ContextEntry
deriving DecidableEq, Repr

/-- Token estimate of one entry. -/
def tokensOf : ContextEntry → Nat
  | ContextEntry.message _ t _ => t
  | ContextEntry.action_request _ t => t
  | ContextEntry.action_result _ t => t

/-- Aggregate token estimate of a buffer (§3). -/
def estimate (buf : List ContextEntry) : Nat := (buf.map tokensOf).sum

/-- The call identifier of an entry, if it has one. -/
def callIdOf : ContextEntry → Option Nat
  | ContextEntry.action_request c _ => some c
  | ContextEntry.action_result c _ => some c
  | _ => none

/-- Whether the buffer holds an action-request with this call id. -/
def hasRequest (c : Nat) (l : List ContextEntry) : Bool :=
  l.any (fun e =>
    match e with
    | ContextEntry.action_request c' _ => c' == c
    | _ => false)

/-- Whether the buffer holds an action-result with this call id. -/
def hasResult (c : Nat) (l : List ContextEntry) : Bool :=
  l.any (fun e =>
    match e with
    | ContextEntry.action_result c' _ => c' == c
    | _ => false)

/-- Modelled from the spec: evicting the oldest entries (§4.3) — split
the buffer into an evicted prefix and a kept suffix, the shortest prefix
whose removal brings the estimate to or below the target. -/
def dropOldest (target : Nat) : List ContextEntry →
    List ContextEntry × List ContextEntry
  | [] => ([], [])
  | e :: rest =>
    if estimate (e :: rest) ≤ target then ([], e :: rest)
    else
      let p := dropOldest target rest
      (e :: p.1, p.2)

/-- Call ids occurring in a list of entries. -/
def callIds (l : List ContextEntry) : List Nat := l.filterMap callIdOf

/-- Modelled from the spec: passive compression (§4.3): triggers only
when the estimate exceeds the ceiling; evicts the oldest entries until
the estimate is at or below the target, then extends the eviction so
request/result pairs stay together — an entry whose partner was evicted
is evicted too. -/
def passiveCompress (ceiling target : Nat) (buf : List ContextEntry) :
    List ContextEntry :=
  if estimate buf ≤ ceiling then buf
  else
    let p := dropOldest target buf
    p.2.filter (fun e =>
      match callIdOf e with
      | some c => !(callIds p.1).contains c
      | none => true)

/-- Pinned-preamble test: pinned messages survive active compression. -/
def isPinned : ContextEntry → Bool
  | ContextEntry.message p _ _ => p
  | _ => false

/-- Token estimate of the synthetic summary entry. -/
def tokenCount (s : String) : Nat := s.length

/-- Modelled from the spec: active compression (§4.3): one summarization
call whose sole input is the current buffer; on success the whole buffer
is replaced by the pinned preamble plus one synthetic summary entry; on
failure the buffer is unchanged and the failure is returned as an
ordinary action-error Result, not raised. -/
def activeCompress (summarize : List ContextEntry → Except String String)
    (buf : List ContextEntry) : List ContextEntry × Result :=
  match summarize buf with
  | Except.ok summary =>
    (buf.filter isPinned ++
       [ContextEntry.message false (tokenCount summary) summary],
     Result.ok summary)
  | Except.error msg => (buf, Result.err Err.EngineError msg)

/-- A Mailbox state transition request, used to quantify over all
operation sequences (§5: the Mailbox serializes all state transitions,
so a concurrent history is a sequence of these atomic steps). -/
inductive Op where
  | enq (typ content : String) (max_actions : Nat) (priority : Int)
        (metadata : List (String × String)) : Op
  | pickOp : Op
  | doneOp (i : Nat) : Op
  | suspendOp (i : Nat) (note : String) : Op
  | updateOp (i : Nat) (f : UpdateFields) : Op
  | deleteOp (i : Nat) : Op

/-- One serialized Mailbox step; a failed operation leaves the state
unchanged (the error is surfaced to the caller, §7). -/
def step (s : MailboxState) : Op → MailboxState
  | Op.enq t c m p md =>
    match enqueue s t c m p md with
    | Except.ok r => r.2
    | Except.error _ => s
  | Op.pickOp =>
    match pick s with
    | Except.ok r => r.2
    | Except.error _ => s
  | Op.doneOp i =>
    match mdone s i with
    | Except.ok s' => s'
    | Except.error _ => s
  | Op.suspendOp i note =>
    match msuspend s i note with
    | Except.ok s' => s'
    | Except.error _ => s
  | Op.updateOp i f =>
    match update s i f with
    | Except.ok s' => s'
    | Except.error _ => s
  | Op.deleteOp i =>
    match mdelete s i with
    | Except.ok s' => s'
    | Except.error _ => s

/-- Run a sequence of serialized Mailbox steps from a state. -/
def runOps (s : MailboxState) : List Op → MailboxState
  | [] => s
  | o :: os => runOps (step s o) os

/-- Repeatedly `pick()` and `done()` the picked Event, recording the
order in which Events are delivered (the spec's §8 ordering scenario). -/
def drainIds : Nat → MailboxState → List Nat
  | 0, _ => []
  | fuel + 1, s =>
    match pick s with
    | Except.ok r =>
      match mdone r.2 r.1.id with
      | Except.ok s'' => r.1.id :: drainIds fuel s''
      | Except.error _ => [r.1.id]
    | Except.error _ => []

/-- The Event ordering of §4.1: higher priority first, then creation
order within a priority tier. -/
def evBefore (a b : Event) : Prop :=
  b.priority < a.priority ∨
  (a.priority = b.priority ∧ a.created_at ≤ b.created_at)

/-- A concrete tool registry used in the spec's §8 scenarios. -/
def demoTools : List ToolSpec :=
  [{ name := "a", required_args := [], handler := fun _ => Except.ok "ra" },
   { name := "b", required_args := [], handler := fun _ => Except.ok "rb" }]

/-- A state with one Event (max_actions = 1) just activated by `pick()`
(the §8 budget scenario). -/
def demoActive : MailboxState :=
  runOps initState [Op.enq "text" "hi" 1 5 [], Op.pickOp]

/-- One engine response with two ordinary actions and a suspend (§8). -/
def demoBatch : List ActionReq :=
  [ActionReq.ordinary "a" [], ActionReq.ordinary "b" [],
   ActionReq.suspendReq "n"]

/-- The §8 ordering scenario: priorities enqueued in order [5, 1, 5]. -/
def demoQueue : MailboxState :=
  runOps initState [Op.enq "text" "a" 1 5 [], Op.enq "text" "b" 1 1 [],
    Op.enq "text" "c" 1 5 []]

/-- Propositional form of `wf`. -/
def WFP (s : MailboxState) : Prop :=
  (s.events.map Event.id).Nodup ∧
  (∀ e ∈ s.events, e.id < s.next_id) ∧
  (match s.active_id with
   | none => ∀ e ∈ s.events, e.status ≠ Status.active
   | some i =>
     (∀ e ∈ s.events, e.status = Status.active → e.id = i) ∧
     (∃ e ∈ s.events, e.id = i ∧ e.status = Status.active))

/-- The Mailbox table is kept in the §4.1 delivery order. -/
def ordered (s : MailboxState) : Prop :=
  s.events.Pairwise evBefore

theorem insertOrdered_perm (e : Event) (l : List Event) :
    List.Perm (insertOrdered e l) (e :: l) := by
  induction l with
  | nil => exact List.Perm.refl _
  | cons x xs ih =>
    unfold insertOrdered
    split
    · exact List.Perm.refl _
    · exact (ih.cons x).trans (List.Perm.swap e x xs)

theorem mem_insertOrdered {x e : Event} {l : List Event} :
    x ∈ insertOrdered e l ↔ x = e ∨ x ∈ l := by
  rw [(insertOrdered_perm e l).mem_iff, List.mem_cons]

theorem mapEvent_map_id (i : Nat) (f : Event → Event) (l : List Event)
    (hf : ∀ x, (f x).id = x.id) :
    (mapEvent i f l).map Event.id = l.map Event.id := by
  induction l with
  | nil => rfl
  | cons x xs ih =>
    simp only [mapEvent, List.map_cons] at *
    by_cases hx : x.id = i
    · simp [hx, hf, ih]
    · simp [hx, ih]

theorem mem_mapEvent {x : Event} {i : Nat} {f : Event → Event}
    {l : List Event} :
    x ∈ mapEvent i f l ↔ ∃ y ∈ l, (if y.id = i then f y else y) = x := by
  unfold mapEvent
  simp [List.mem_map]

theorem find?_id_mapEvent (i : Nat) (f : Event → Event) (l : List Event)
    (hf : ∀ x, (f x).id = x.id) :
    (mapEvent i f l).find? (fun x => x.id == i) =
      (l.find? (fun x => x.id == i)).map f := by
  induction l with
  | nil => rfl
  | cons x xs ih =>
    show ((if x.id = i then f x else x) :: mapEvent i f xs).find?
        (fun x => x.id == i) = _
    by_cases hx : x.id = i
    · rw [if_pos hx]
      rw [List.find?_cons_of_pos _ (by simp [hf x, hx]),
          List.find?_cons_of_pos _ (by simp [hx])]
      simp
    · rw [if_neg hx]
      rw [List.find?_cons_of_neg _ (by simp [hx]),
          List.find?_cons_of_neg _ (by simp [hx])]
      exact ih

theorem wf_iff (s : MailboxState) : wf s = true ↔ WFP s := by
  unfold wf WFP
  cases s.active_id with
  | none =>
    simp [List.all_eq_true, decide_eq_true_iff, and_assoc]
  | some i =>
    simp only [Bool.and_eq_true, Bool.or_eq_true, Bool.not_eq_true,
      Bool.not_eq_true', List.all_eq_true, List.any_eq_true,
      decide_eq_true_iff, beq_iff_eq, beq_eq_false_iff_ne, bne_iff_ne,
      ne_eq, and_assoc]
    constructor
    · rintro ⟨h1, h2, h3, h4⟩
      refine ⟨h1, h2, ?_, ?_⟩
      · intro e he hst
        rcases h3 e he with h' | h'
        · exact absurd hst h'
        · exact h'
      · exact h4
    · rintro ⟨h1, h2, h3, h4⟩
      refine ⟨h1, h2, ?_, ?_⟩
      · intro e he
        by_cases hst : e.status = Status.active
        · exact Or.inr (h3 e he hst)
        · exact Or.inl hst
      · exact h4

theorem length_le_one_of_all_eq {α : Type} {l : List α} {a : α}
    (hn : l.Nodup) (h : ∀ x ∈ l, x = a) : l.length ≤ 1 := by
  cases l with
  | nil => simp
  | cons x xs =>
    cases xs with
    | nil => simp
    | cons y ys =>
      exfalso
      have hx : x = a := h x (by simp)
      have hy : y = a := h y (by simp)
      have : x ≠ y := by
        intro hxy
        exact (List.nodup_cons.mp hn).1 (hxy ▸ List.mem_cons_self y ys)
      exact this (hx.trans hy.symm)

theorem findEvent_spec {s : MailboxState} {i : Nat} {e : Event}
    (h : findEvent s i = some e) : e ∈ s.events ∧ e.id = i := by
  unfold findEvent at h
  refine ⟨List.mem_of_find?_eq_some h, ?_⟩
  have := List.find?_some h
  simpa using this

theorem WFP_enqueue {s : MailboxState} {t c : String} {m : Nat} {p : Int}
    {md : List (String × String)} {r : Nat × MailboxState}
    (hw : WFP s) (h : enqueue s t c m p md = Except.ok r) : WFP r.2 := by
  unfold enqueue at h
  split at h
  · exact absurd h (by simp)
  · split at h
    · exact absurd h (by simp)
    · rcases hw with ⟨hnodup, hfresh, hact⟩
      simp only [Except.ok.injEq] at h
      subst h
      refine ⟨?_, ?_, ?_⟩
      · have hperm := (insertOrdered_perm
          { id := s.next_id, typ := t, content := c, max_actions := m,
            priority := p, metadata := md, status := Status.pending,
            created_at := s.next_seq, updated_at := s.next_seq,
            progress_note := none } s.events).map Event.id
        rw [hperm.nodup_iff]
        simp only [List.map_cons, List.nodup_cons]
        refine ⟨?_, hnodup⟩
        intro hmem
        rcases List.mem_map.mp hmem with ⟨y, hy, hid⟩
        exact absurd hid (Nat.ne_of_gt (hfresh y hy)).symm
      · intro e he
        rcases mem_insertOrdered.mp he with he | he
        · subst he; exact Nat.lt_succ_self _
        · exact Nat.lt_succ_of_lt (hfresh e he)
      · cases hai : s.active_id with
        | none =>
          rw [hai] at hact
          intro e he
          rcases mem_insertOrdered.mp he with he | he
          · subst he; simp
          · exact hact e he
        | some i =>
          rw [hai] at hact
          refine ⟨?_, ?_⟩
          · intro e he hst
            rcases mem_insertOrdered.mp he with he | he
            · subst he; simp at hst
            · exact hact.1 e he hst
          · rcases hact.2 with ⟨a, ha, h1, h2⟩
            exact ⟨a, mem_insertOrdered.mpr (Or.inr ha), h1, h2⟩

theorem WFP_pick {s : MailboxState} {r : Event × MailboxState}
    (hw : WFP s) (h : pick s = Except.ok r) : WFP r.2 := by
  unfold pick at h
  split at h
  · exact absurd h (by simp)
  · rename_i hai
    split at h
    · exact absurd h (by simp)
    · rename_i e0 hfind
      rcases hw with ⟨hnodup, hfresh, hact⟩
      rw [hai] at hact
      simp only [Except.ok.injEq] at h
      subst h
      have he0 : e0 ∈ s.events := List.mem_of_find?_eq_some hfind
      dsimp only
      refine ⟨?_, ?_, ?_⟩
      · rw [mapEvent_map_id e0.id
          (fun x => { x with status := Status.active }) s.events
          (fun x => rfl)]
        exact hnodup
      · intro e he
        rcases mem_mapEvent.mp he with ⟨y, hy, hxy⟩
        have : e.id = y.id := by
          by_cases hyi : y.id = e0.id
          · rw [if_pos hyi] at hxy; subst hxy; rfl
          · rw [if_neg hyi] at hxy; subst hxy; rfl
        rw [this]
        exact hfresh y hy
      · refine ⟨?_, ?_⟩
        · intro e he hst
          rcases mem_mapEvent.mp he with ⟨y, hy, hxy⟩
          by_cases hyi : y.id = e0.id
          · rw [if_pos hyi] at hxy; subst hxy; exact hyi
          · rw [if_neg hyi] at hxy; subst hxy
            exact absurd hst (hact y hy)
        · refine ⟨{ e0 with status := Status.active }, ?_, rfl, rfl⟩
          exact mem_mapEvent.mpr ⟨e0, he0, by simp⟩

theorem WFP_deactivate {s : MailboxState} {i : Nat} (f : Event → Event)
    (hw : WFP s) (hai : s.active_id = some i)
    (hfid : ∀ x, (f x).id = x.id)
    (hfst : ∀ x, (f x).status ≠ Status.active) (ar : List Nat) :
    WFP { s with events := mapEvent i f s.events, active_id := none,
                 archive := ar } := by
  rcases hw with ⟨hnodup, hfresh, hact⟩
  rw [hai] at hact
  refine ⟨?_, ?_, ?_⟩
  · show (List.map Event.id (mapEvent i f s.events)).Nodup
    rw [mapEvent_map_id i f s.events hfid]
    exact hnodup
  · intro e he
    rcases mem_mapEvent.mp he with ⟨y, hy, hxy⟩
    have : e.id = y.id := by
      by_cases hyi : y.id = i
      · rw [if_pos hyi] at hxy; subst hxy; exact hfid y
      · rw [if_neg hyi] at hxy; subst hxy; rfl
    rw [this]
    exact hfresh y hy
  · intro e he
    rcases mem_mapEvent.mp he with ⟨y, hy, hxy⟩
    by_cases hyi : y.id = i
    · rw [if_pos hyi] at hxy; subst hxy; exact hfst y
    · rw [if_neg hyi] at hxy; subst hxy
      intro hst
      exact hyi (hact.1 y hy hst)

theorem WFP_mdone {s : MailboxState} {i : Nat} {s' : MailboxState}
    (hw : WFP s) (h : mdone s i = Except.ok s') : WFP s' := by
  unfold mdone at h
  split at h
  · rename_i hai
    simp only [Except.ok.injEq] at h
    subst h
    exact WFP_deactivate (fun x => { x with status := Status.done }) hw hai
      (fun x => rfl) (fun x => by simp) _
  · exact absurd h (by simp)

theorem WFP_msuspend {s : MailboxState} {i : Nat} {note : String}
    {s' : MailboxState} (hw : WFP s) (h : msuspend s i note = Except.ok s') :
    WFP s' := by
  unfold msuspend at h
  split at h
  · rename_i hai
    simp only [Except.ok.injEq] at h
    subst h
    exact WFP_deactivate (fun x =>
      { x with status := Status.pending, progress_note := some note,
               metadata := ("progress_note", note) ::
                 x.metadata.filter (fun kv => kv.1 != "progress_note") })
      hw hai (fun x => rfl) (fun x => by simp) s.archive
  · exact absurd h (by simp)

theorem WFP_update {s : MailboxState} {i : Nat} {f : UpdateFields}
    {s' : MailboxState} (hw : WFP s) (h : update s i f = Except.ok s') :
    WFP s' := by
  unfold update at h
  split at h
  · exact absurd h (by simp)
  · rename_i e heq
    rcases findEvent_spec heq with ⟨hmem, hid⟩
    split at h
    · exact absurd h (by simp)
    · split at h
      · exact absurd h (by simp)
      · split at h
        · exact absurd h (by simp)
        · rename_i hnotdone hnost hnoact
          rcases hw with ⟨hnodup, hfresh, hact⟩
          simp only [Except.ok.injEq] at h
          subst h
          have hflid : ∀ x ∈ s.events.filter (fun x => x.id != i), x.id ≠ i := by
            intro x hx
            have := (List.mem_filter.mp hx).2
            simpa using this
          have hflmem : ∀ x ∈ s.events.filter (fun x => x.id != i), x ∈ s.events := by
            intro x hx
            exact (List.mem_filter.mp hx).1
          refine ⟨?_, ?_, ?_⟩
          · have hperm := (insertOrdered_perm
              { e with content := f.content.getD e.content,
                       priority := f.priority.getD e.priority,
                       metadata := f.metadata.getD e.metadata,
                       status := f.status.getD e.status,
                       updated_at := s.next_seq }
              (s.events.filter (fun x => x.id != i))).map Event.id
            rw [hperm.nodup_iff]
            simp only [List.map_cons, List.nodup_cons]
            constructor
            · intro hmem'
              rcases List.mem_map.mp hmem' with ⟨y, hy, hyid⟩
              exact hflid y hy (hyid.trans hid)
            · exact ((List.filter_sublist s.events).map Event.id).nodup hnodup
          · intro x hx
            rcases mem_insertOrdered.mp hx with hx | hx
            · subst hx
              show e.id < s.next_id
              exact hfresh e hmem
            · exact hfresh x (hflmem x hx)
          · cases hai : s.active_id with
            | none =>
              rw [hai] at hact
              intro x hx
              rcases mem_insertOrdered.mp hx with hx | hx
              · subst hx
                show ¬ f.status.getD e.status = Status.active
                cases hfs : f.status with
                | none => simpa using hact e hmem
                | some st =>
                  simp only [Option.getD_some]
                  intro hst
                  subst hst
                  exact hnost (Or.inl (by rw [hfs]))
              · exact hact x (hflmem x hx)
            | some j =>
              rw [hai] at hact
              constructor
              · intro x hx hst
                rcases mem_insertOrdered.mp hx with hx | hx
                · subst hx
                  show e.id = j
                  cases hfs : f.status with
                  | none =>
                    rw [hfs] at hst
                    simp only [Option.getD_none] at hst
                    exact hact.1 e hmem hst
                  | some st =>
                    rw [hfs] at hst
                    simp only [Option.getD_some] at hst
                    subst hst
                    exact absurd (Or.inl (by rw [hfs])) hnost
                · exact hact.1 x (hflmem x hx) hst
              · rcases hact.2 with ⟨a, ha, haid, hast⟩
                by_cases hai' : a.id = i
                · have hae : a = e :=
                    List.inj_on_of_nodup_map hnodup ha hmem (by rw [hai', hid])
                  have hest : e.status = Status.active := hae ▸ hast
                  have hfs : f.status = none := by
                    cases hfs : f.status with
                    | none => rfl
                    | some st =>
                      exact absurd ⟨hest, by rw [hfs]; rfl⟩ hnoact
                  refine ⟨_, mem_insertOrdered.mpr (Or.inl rfl), ?_, ?_⟩
                  · show e.id = j
                    rw [hid, ← hai', haid]
                  · show f.status.getD e.status = Status.active
                    rw [hfs]
                    simpa using hest
                · refine ⟨a, mem_insertOrdered.mpr (Or.inr ?_), haid, hast⟩
                  exact List.mem_filter.mpr ⟨ha, by simpa using hai'⟩

theorem WFP_mdelete {s : MailboxState} {i : Nat} {s' : MailboxState}
    (hw : WFP s) (h : mdelete s i = Except.ok s') : WFP s' := by
  unfold mdelete at h
  split at h
  · exact absurd h (by simp)
  · rename_i e heq
    rcases findEvent_spec heq with ⟨hmem, hid⟩
    rcases hw with ⟨hnodup, hfresh, hact⟩
    have hkey : ∀ s'', s'' = { s with events := s.events.filter (fun x => x.id != i) } →
        (e.status = Status.pending ∨ e.status = Status.suspended) → WFP s'' := by
      intro s'' hs'' hstat
      subst hs''
      refine ⟨?_, ?_, ?_⟩
      · exact ((List.filter_sublist s.events).map Event.id).nodup hnodup
      · intro x hx
        exact hfresh x (List.mem_filter.mp hx).1
      · cases hai : s.active_id with
        | none =>
          rw [hai] at hact
          intro x hx
          exact hact x (List.mem_filter.mp hx).1
        | some j =>
          rw [hai] at hact
          constructor
          · intro x hx hst
            exact hact.1 x (List.mem_filter.mp hx).1 hst
          · rcases hact.2 with ⟨a, ha, haid, hast⟩
            refine ⟨a, List.mem_filter.mpr ⟨ha, ?_⟩, haid, hast⟩
            by_cases hai' : a.id = i
            · exfalso
              have hae : a = e :=
                List.inj_on_of_nodup_map hnodup ha hmem (by rw [hai', hid])
              rcases hstat with hstat | hstat
              · rw [hae, hstat] at hast; cases hast
              · rw [hae, hstat] at hast; cases hast
            · simpa using hai'
    split at h
    · simp only [Except.ok.injEq] at h
      exact hkey s' h.symm (Or.inl (by assumption))
    · simp only [Except.ok.injEq] at h
      exact hkey s' h.symm (Or.inr (by assumption))
    · exact absurd h (by simp)

theorem WFP_activeCount {s : MailboxState} (h : WFP s) :
    activeCount s ≤ 1 := by
  rcases h with ⟨hnodup, _, hact⟩
  unfold activeCount
  cases hai : s.active_id with
  | none =>
    rw [hai] at hact
    have : s.events.filter (fun e => e.status = Status.active) = [] := by
      apply List.filter_eq_nil_iff.mpr
      intro e he
      simp only [decide_eq_true_iff]
      exact hact e he
    simp [this]
  | some i =>
    rw [hai] at hact
    have hsub : (s.events.filter (fun e => e.status = Status.active)).Sublist s.events :=
      List.filter_sublist _
    have hnd : ((s.events.filter (fun e => e.status = Status.active)).map Event.id).Nodup :=
      (hsub.map Event.id).nodup hnodup
    have hlen : ((s.events.filter (fun e => e.status = Status.active)).map Event.id).length ≤ 1 := by
      apply length_le_one_of_all_eq hnd
      intro x hx
      rcases List.mem_map.mp hx with ⟨e, he, hei⟩
      rcases List.mem_filter.mp he with ⟨he', hst⟩
      have : e.status = Status.active := by
        simpa using hst
      exact hei ▸ hact.1 e he' this
    simpa using hlen

theorem WFP_initState : WFP initState := by
  refine ⟨by simp [initState], ?_, ?_⟩
  · intro e he
    simp [initState] at he
  · show ∀ e ∈ ([] : List Event), e.status ≠ Status.active
    intro e he
    simp at he

theorem WFP_step (s : MailboxState) (o : Op) (hw : WFP s) :
    WFP (step s o) := by
  cases o with
  | enq t c m p md =>
    simp only [step]
    cases h : enqueue s t c m p md with
    | ok r => exact WFP_enqueue hw h
    | error _ => exact hw
  | pickOp =>
    simp only [step]
    cases h : pick s with
    | ok r => exact WFP_pick hw h
    | error _ => exact hw
  | doneOp i =>
    simp only [step]
    cases h : mdone s i with
    | ok s' => exact WFP_mdone hw h
    | error _ => exact hw
  | suspendOp i note =>
    simp only [step]
    cases h : msuspend s i note with
    | ok s' => exact WFP_msuspend hw h
    | error _ => exact hw
  | updateOp i f =>
    simp only [step]
    cases h : update s i f with
    | ok s' => exact WFP_update hw h
    | error _ => exact hw
  | deleteOp i =>
    simp only [step]
    cases h : mdelete s i with
    | ok s' => exact WFP_mdelete hw h
    | error _ => exact hw

theorem WFP_runOps (ops : List Op) (s : MailboxState) (hw : WFP s) :
    WFP (runOps s ops) := by
  induction ops generalizing s with
  | nil => simpa [runOps] using hw
  | cons o os ih =>
    simp only [runOps]
    exact ih _ (WFP_step s o hw)

/-- C1: in every state reachable by a serialized history of Mailbox
operations, at most one Event has status=active; moreover every single
serialized operation — in particular pick(), done() and suspend(), whose
mutual exclusion the spec demands precisely so that these steps are
atomic — preserves well-formedness and the at-most-one-active bound. -/
theorem single_active_invariant :
    (∀ ops : List Op, activeCount (runOps initState ops) ≤ 1) ∧
    (∀ s : MailboxState, ∀ o : Op, wf s = true →
      wf (step s o) = true ∧ activeCount (step s o) ≤ 1) := by
  constructor
  · intro ops
    exact WFP_activeCount (WFP_runOps ops initState WFP_initState)
  · intro s o hwf
    have hw := (wf_iff s).mp hwf
    have h2 := WFP_step s o hw
    exact ⟨(wf_iff _).mpr h2, WFP_activeCount h2⟩

/-- Witness for C1's second part at a concrete well-formed state. -/
theorem single_active_invariant_witness :
    wf (step (runOps initState [Op.enq "text" "hi" 3 5 []]) Op.pickOp)
      = true :=
  (single_active_invariant.2 (runOps initState [Op.enq "text" "hi" 3 5 []])
    Op.pickOp (by decide)).1

theorem budgetOk_increment {s s' : MailboxState}
    (h : increment s = Except.ok s') : budgetOk s' = true := by
  unfold increment at h
  split at h
  · exact absurd h (by simp)
  · rename_i e heq
    split at h
    · rename_i hlt
      simp only [Except.ok.injEq] at h
      subst h
      unfold budgetOk
      have heq' : activeEvent { s with action_count := s.action_count + 1 }
          = some e := heq
      rw [heq']
      simpa using hlt
    · exact absurd h (by simp)

theorem budgetOk_mdone {s : MailboxState} {i : Nat} {s' : MailboxState}
    (h : mdone s i = Except.ok s') : budgetOk s' = true := by
  unfold mdone at h
  split at h
  · simp only [Except.ok.injEq] at h
    subst h
    rfl
  · exact absurd h (by simp)

theorem budgetOk_msuspend {s : MailboxState} {i : Nat} {note : String}
    {s' : MailboxState} (h : msuspend s i note = Except.ok s') :
    budgetOk s' = true := by
  unfold msuspend at h
  split at h
  · simp only [Except.ok.injEq] at h
    subst h
    rfl
  · exact absurd h (by simp)

theorem budgetOk_execAction (tools : List ToolSpec) (s : MailboxState)
    (a : ActionReq) (hb : budgetOk s = true) :
    budgetOk (execAction tools s a).2 = true := by
  cases a with
  | ordinary name args =>
    simp only [execAction]
    cases h : increment s with
    | ok s' => exact budgetOk_increment h
    | error e => exact hb
  | complete =>
    simp only [execAction]
    cases hai : s.active_id with
    | none => exact hb
    | some i =>
      cases h : mdone s i with
      | ok s' =>
        simp only [h]
        exact budgetOk_mdone h
      | error e =>
        simp only [h]
        exact hb
  | suspendReq note =>
    simp only [execAction]
    cases hai : s.active_id with
    | none => exact hb
    | some i =>
      cases h : msuspend s i note with
      | ok s' =>
        simp only [h]
        exact budgetOk_msuspend h
      | error e =>
        simp only [h]
        exact hb

theorem budgetOk_execBatch (tools : List ToolSpec) (s : MailboxState)
    (batch : List ActionReq) (hb : budgetOk s = true) :
    budgetOk (execBatch tools s batch).1 = true := by
  induction batch generalizing s with
  | nil => simpa [execBatch] using hb
  | cons a rest ih =>
    simp only [execBatch]
    exact ih _ (budgetOk_execAction tools s a hb)

/-- C2: executing any sequence of engine-issued actions never drives an
active Event's action counter above its max_actions (administrative
actions bypass the counter entirely); `pick()` resets the counter to 0
while `done()`/`suspend()` leave it untouched; and in the §8 scenario
(max_actions = 1, two ordinary actions plus a suspend in one response)
the second ordinary action is refused with BudgetExceeded while the
suspend still executes, leaving the Event pending. -/
theorem budget_invariant :
    (∀ (tools : List ToolSpec) (s : MailboxState) (batch : List ActionReq),
       budgetOk s = true → budgetOk (execBatch tools s batch).1 = true) ∧
    (∀ (s : MailboxState) (r : Event × MailboxState),
       pick s = Except.ok r → r.2.action_count = 0) ∧
    (∀ (s : MailboxState) (i : Nat) (s' : MailboxState),
       mdone s i = Except.ok s' → s'.action_count = s.action_count) ∧
    (∀ (s : MailboxState) (i : Nat) (note : String) (s' : MailboxState),
       msuspend s i note = Except.ok s' → s'.action_count = s.action_count) ∧
    (execBatch demoTools demoActive demoBatch).2 =
      [Result.ok "ra", Result.err Err.BudgetExceeded "b",
       Result.ok "suspended"] ∧
    (execBatch demoTools demoActive demoBatch).1.active_id = none ∧
    (findEvent (execBatch demoTools demoActive demoBatch).1 0).map
      Event.status = some Status.pending := by
  refine ⟨budgetOk_execBatch, ?_, ?_, ?_, by decide, by decide, by decide⟩
  · intro s r h
    unfold pick at h
    split at h
    · exact absurd h (by simp)
    · split at h
      · exact absurd h (by simp)
      · simp only [Except.ok.injEq] at h
        subst h
        rfl
  · intro s i s' h
    unfold mdone at h
    split at h
    · simp only [Except.ok.injEq] at h
      subst h
      rfl
    · exact absurd h (by simp)
  · intro s i note s' h
    unfold msuspend at h
    split at h
    · simp only [Except.ok.injEq] at h
      subst h
      rfl
    · exact absurd h (by simp)

/-- Witness for C2's budget-preservation part at the §8 scenario state. -/
theorem budget_invariant_witness :
    budgetOk (execBatch demoTools demoActive demoBatch).1 = true :=
  budget_invariant.1 demoTools demoActive demoBatch (by decide)

theorem evBefore_refl (a : Event) : evBefore a a :=
  Or.inr ⟨rfl, le_refl _⟩

theorem evBefore_trans {a b c : Event} (h1 : evBefore a b)
    (h2 : evBefore b c) : evBefore a c := by
  unfold evBefore at *
  omega

theorem insertOrdered_pairwise (e : Event) (l : List Event)
    (h : l.Pairwise evBefore) : (insertOrdered e l).Pairwise evBefore := by
  induction l with
  | nil => simp [insertOrdered]
  | cons x xs ih =>
    rcases List.pairwise_cons.mp h with ⟨hx, hxs⟩
    unfold insertOrdered
    split
    · rename_i hc
      apply List.pairwise_cons.mpr
      refine ⟨?_, h⟩
      intro y hy
      have hex : evBefore e x := by
        unfold evBefore; omega
      rcases List.mem_cons.mp hy with rfl | hy
      · exact hex
      · exact evBefore_trans hex (hx y hy)
    · rename_i hc
      apply List.pairwise_cons.mpr
      refine ⟨?_, ih hxs⟩
      intro y hy
      rcases mem_insertOrdered.mp hy with rfl | hy
      · unfold evBefore
        rw [not_or, not_and_or] at hc
        omega
      · exact hx y hy

theorem ordered_mapEvent (i : Nat) (f : Event → Event) (l : List Event)
    (hf : ∀ x, (f x).priority = x.priority ∧ (f x).created_at = x.created_at)
    (h : l.Pairwise evBefore) : (mapEvent i f l).Pairwise evBefore := by
  unfold mapEvent
  rw [List.pairwise_map]
  apply h.imp
  intro a b hab
  have hpa : (if a.id = i then f a else a).priority = a.priority := by
    split
    · exact (hf a).1
    · rfl
  have hca : (if a.id = i then f a else a).created_at = a.created_at := by
    split
    · exact (hf a).2
    · rfl
  have hpb : (if b.id = i then f b else b).priority = b.priority := by
    split
    · exact (hf b).1
    · rfl
  have hcb : (if b.id = i then f b else b).created_at = b.created_at := by
    split
    · exact (hf b).2
    · rfl
  unfold evBefore at *
  rw [hpa, hca, hpb, hcb]
  exact hab

theorem ordered_step (s : MailboxState) (o : Op) (ho : ordered s) :
    ordered (step s o) := by
  cases o with
  | enq t c m p md =>
    simp only [step]
    cases h : enqueue s t c m p md with
    | ok r =>
      unfold enqueue at h
      split at h
      · exact absurd h (by simp)
      · split at h
        · exact absurd h (by simp)
        · simp only [Except.ok.injEq] at h
          subst h
          exact insertOrdered_pairwise _ _ ho
    | error e => exact ho
  | pickOp =>
    simp only [step]
    cases h : pick s with
    | ok r =>
      unfold pick at h
      split at h
      · exact absurd h (by simp)
      · split at h
        · exact absurd h (by simp)
        · simp only [Except.ok.injEq] at h
          subst h
          exact ordered_mapEvent _ _ _ (fun x => ⟨rfl, rfl⟩) ho
    | error e => exact ho
  | doneOp i =>
    simp only [step]
    cases h : mdone s i with
    | ok s' =>
      unfold mdone at h
      split at h
      · simp only [Except.ok.injEq] at h
        subst h
        exact ordered_mapEvent _ _ _ (fun x => ⟨rfl, rfl⟩) ho
      · exact absurd h (by simp)
    | error e => exact ho
  | suspendOp i note =>
    simp only [step]
    cases h : msuspend s i note with
    | ok s' =>
      unfold msuspend at h
      split at h
      · simp only [Except.ok.injEq] at h
        subst h
        exact ordered_mapEvent _ _ _ (fun x => ⟨rfl, rfl⟩) ho
      · exact absurd h (by simp)
    | error e => exact ho
  | updateOp i f =>
    simp only [step]
    cases h : update s i f with
    | ok s' =>
      unfold update at h
      split at h
      · exact absurd h (by simp)
      · split at h
        · exact absurd h (by simp)
        · split at h
          · exact absurd h (by simp)
          · split at h
            · exact absurd h (by simp)
            · simp only [Except.ok.injEq] at h
              subst h
              exact insertOrdered_pairwise _ _
                (ho.sublist (List.filter_sublist s.events))
    | error e => exact ho
  | deleteOp i =>
    simp only [step]
    cases h : mdelete s i with
    | ok s' =>
      unfold mdelete at h
      split at h
      · exact absurd h (by simp)
      · split at h
        · simp only [Except.ok.injEq] at h
          subst h
          exact ho.sublist (List.filter_sublist s.events)
        · simp only [Except.ok.injEq] at h
          subst h
          exact ho.sublist (List.filter_sublist s.events)
        · exact absurd h (by simp)
    | error e => exact ho

theorem ordered_runOps (ops : List Op) (s : MailboxState) (ho : ordered s) :
    ordered (runOps s ops) := by
  induction ops generalizing s with
  | nil => simpa [runOps] using ho
  | cons o os ih =>
    simp only [runOps]
    exact ih _ (ordered_step s o ho)

theorem ordered_initState : ordered initState := by
  simp [ordered, initState]

theorem find?_pairwise_min {l : List Event} {e : Event}
    (hp : l.Pairwise evBefore)
    (h : l.find? (fun x => x.status == Status.pending) = some e) :
    ∀ y ∈ l, y.status = Status.pending → evBefore e y := by
  induction l with
  | nil => cases h
  | cons x xs ih =>
    rcases List.pairwise_cons.mp hp with ⟨hx, hxs⟩
    by_cases hxp : x.status = Status.pending
    · rw [List.find?_cons_of_pos _ (by simp [hxp])] at h
      simp only [Option.some.injEq] at h
      subst h
      intro y hy hyp
      rcases List.mem_cons.mp hy with rfl | hy
      · exact evBefore_refl _
      · exact hx y hy
    · rw [List.find?_cons_of_neg _ (by simp [hxp])] at h
      intro y hy hyp
      rcases List.mem_cons.mp hy with rfl | hy
      · exact absurd hyp hxp
      · exact ih hxs h y hy hyp

theorem pick_min {s : MailboxState} {r : Event × MailboxState}
    (ho : ordered s) (h : pick s = Except.ok r) :
    ∀ y ∈ s.events, y.status = Status.pending → evBefore r.1 y := by
  unfold pick at h
  split at h
  · exact absurd h (by simp)
  · split at h
    · exact absurd h (by simp)
    · rename_i e0 hfind
      simp only [Except.ok.injEq] at h
      subst h
      intro y hy hyp
      have := find?_pairwise_min ho hfind y hy hyp
      unfold evBefore at *
      exact this

/-- C3: `pick()` delivers pending Events in priority order (higher
first), FIFO within a priority tier — concretely, priorities enqueued in
order [5, 1, 5] are delivered as [first 5, second 5, the 1]; in any
reachable state a successful `pick()` returns a pending Event that
precedes every pending Event in the §4.1 order; and `pick()` fails Empty
when no Event is pending and none is active. -/
theorem pick_priority_order :
    drainIds 3 demoQueue = [0, 2, 1] ∧
    (∀ (ops : List Op) (r : Event × MailboxState),
       pick (runOps initState ops) = Except.ok r →
       ∀ y ∈ (runOps initState ops).events,
         y.status = Status.pending → evBefore r.1 y) ∧
    (∀ s : MailboxState, s.active_id = none →
       (∀ e ∈ s.events, e.status ≠ Status.pending) →
       pick s = Except.error Err.Empty) := by
  refine ⟨by decide, ?_, ?_⟩
  · intro ops r h
    exact pick_min (ordered_runOps ops initState ordered_initState) h
  · intro s hai hnp
    have hfind : s.events.find? (fun x => x.status == Status.pending)
        = none := by
      apply List.find?_eq_none.mpr
      intro x hx
      simp [hnp x hx]
    unfold pick
    rw [hai, hfind]

/-- Witness for C3's quantified parts: a successful pick on a concrete
one-Event queue, and the Empty failure on the empty Mailbox. -/
theorem pick_priority_order_witness :
    (∀ y ∈ (runOps initState [Op.enq "text" "hi" 3 5 []]).events,
       y.status = Status.pending →
       evBefore ⟨0, "text", "hi", 3, 5, [], Status.active, 0, 0, none⟩ y) ∧
    pick initState = Except.error Err.Empty := by
  constructor
  · exact pick_priority_order.2.1 [Op.enq "text" "hi" 3 5 []]
      (⟨0, "text", "hi", 3, 5, [], Status.active, 0, 0, none⟩,
       ⟨[⟨0, "text", "hi", 3, 5, [], Status.active, 0, 0, none⟩],
        1, 1, some 0, 0, []⟩) (by rfl)
  · exact pick_priority_order.2.2 initState rfl
      (by intro e he; simp [initState] at he)

/-- C6: `done(id)` succeeds only when id is the current active Event; on
success the Event becomes done, is archived exactly once, and the active
slot is cleared; a second `done(id)` fails InvalidState with no further
archive append, and the done Event is immutable — `update` on it also
fails InvalidState. -/
theorem done_exactly_once :
    (∀ (s : MailboxState) (i : Nat), s.active_id ≠ some i →
       mdone s i = Except.error Err.InvalidState) ∧
    (∀ (s : MailboxState) (i : Nat) (s₁ : MailboxState), wf s = true →
       mdone s i = Except.ok s₁ →
       mdone s₁ i = Except.error Err.InvalidState ∧
       s₁.archive = s.archive ++ [i] ∧
       s₁.archive.count i = s.archive.count i + 1 ∧
       (∀ f : UpdateFields, update s₁ i f = Except.error Err.InvalidState)) := by
  constructor
  · intro s i hne
    unfold mdone
    rw [if_neg hne]
  · intro s i s₁ hwf h
    have hw := (wf_iff s).mp hwf
    unfold mdone at h
    split at h
    · rename_i hai
      simp only [Except.ok.injEq] at h
      subst h
      refine ⟨?_, rfl, ?_, ?_⟩
      · unfold mdone
        rw [if_neg (by simp)]
      · simp [List.count_append]
      · intro f
        rcases hw with ⟨hnodup, hfresh, hact⟩
        rw [hai] at hact
        rcases hact.2 with ⟨a, ha, haid, hast⟩
        have hsome : (s.events.find? (fun x => x.id == i)).isSome :=
          List.find?_isSome.mpr ⟨a, ha, by simp [haid]⟩
        rcases Option.isSome_iff_exists.mp hsome with ⟨e, he⟩
        have hfind' : findEvent
            { s with events := mapEvent i (fun x => { x with status := Status.done }) s.events,
                     active_id := none, archive := s.archive ++ [i] } i
            = some { e with status := Status.done } := by
          unfold findEvent
          show (mapEvent i (fun x => { x with status := Status.done })
            s.events).find? (fun x => x.id == i) = _
          rw [find?_id_mapEvent i
            (fun x => { x with status := Status.done }) s.events
            (fun x => rfl)]
          rw [he]
          rfl
        unfold update
        rw [hfind']
        simp
    · exact absurd h (by simp)

/-- Witness for C6's success part on a concrete activated Event. -/
theorem done_exactly_once_witness :
    mdone (step demoActive (Op.doneOp 0)) 0 = Except.error Err.InvalidState :=
  (done_exactly_once.2 demoActive 0 (step demoActive (Op.doneOp 0))
    (by decide) (by rfl)).1

/-- C7: after `suspend(id, note)`, a later `pick()` that returns that
Event delivers it with the progress note retrievable from its metadata
(and stored in `progress_note`), and with the action counter reset
to 0. -/
theorem suspend_roundtrip :
    ∀ (s : MailboxState) (i : Nat) (note : String) (s₁ : MailboxState)
      (r : Event × MailboxState),
      msuspend s i note = Except.ok s₁ →
      pick s₁ = Except.ok r →
      r.1.id = i →
      r.1.metadata.lookup "progress_note" = some note ∧
      r.1.progress_note = some note ∧
      r.2.action_count = 0 := by
  intro s i note s₁ r h1 h2 hid
  unfold msuspend at h1
  split at h1
  · rename_i hai
    simp only [Except.ok.injEq] at h1
    subst h1
    unfold pick at h2
    split at h2
    · rename_i heq
      exact absurd heq (by simp)
    · split at h2
      · exact absurd h2 (by simp)
      · rename_i e0 hfind
        simp only [Except.ok.injEq] at h2
        subst h2
        have he0 : e0 ∈ mapEvent i (fun x =>
            { x with status := Status.pending, progress_note := some note,
                     metadata := ("progress_note", note) ::
                       x.metadata.filter (fun kv => kv.1 != "progress_note") })
            s.events := List.mem_of_find?_eq_some hfind
        rcases mem_mapEvent.mp he0 with ⟨y, hy, hxy⟩
        by_cases hyi : y.id = i
        · rw [if_pos hyi] at hxy
          subst hxy
          refine ⟨?_, rfl, rfl⟩
          show (("progress_note", note) ::
            y.metadata.filter (fun kv => kv.1 != "progress_note")).lookup
              "progress_note" = some note
          simp [List.lookup]
        · rw [if_neg hyi] at hxy
          subst hxy
          exact absurd hid hyi
  · exact absurd h1 (by simp)

/-- Witness for C7: suspend then pick on a concrete one-Event Mailbox. -/
theorem suspend_roundtrip_witness :
    (⟨0, "text", "hi", 1, 5, [("progress_note", "note")], Status.active,
        0, 0, some "note"⟩ : Event).metadata.lookup "progress_note"
      = some "note" ∧
    (⟨0, "text", "hi", 1, 5, [("progress_note", "note")], Status.active,
        0, 0, some "note"⟩ : Event).progress_note = some "note" ∧
    (⟨[⟨0, "text", "hi", 1, 5, [("progress_note", "note")], Status.active,
        0, 0, some "note"⟩], 1, 1, some 0, 0, []⟩ : MailboxState).action_count
      = 0 :=
  suspend_roundtrip demoActive 0 "note"
    ⟨[⟨0, "text", "hi", 1, 5, [("progress_note", "note")], Status.pending,
        0, 0, some "note"⟩], 1, 1, none, 0, []⟩
    (⟨0, "text", "hi", 1, 5, [("progress_note", "note")], Status.active,
        0, 0, some "note"⟩,
     ⟨[⟨0, "text", "hi", 1, 5, [("progress_note", "note")], Status.active,
        0, 0, some "note"⟩], 1, 1, some 0, 0, []⟩)
    (by rfl) (by rfl) (by rfl)

theorem dropOldest_append (target : Nat) (l : List ContextEntry) :
    (dropOldest target l).1 ++ (dropOldest target l).2 = l := by
  induction l with
  | nil => rfl
  | cons e rest ih =>
    unfold dropOldest
    split
    · rfl
    · show e :: ((dropOldest target rest).1 ++ (dropOldest target rest).2)
        = e :: rest
      rw [ih]

theorem dropOldest_kept_le (target : Nat) (l : List ContextEntry) :
    estimate (dropOldest target l).2 ≤ target := by
  induction l with
  | nil => simp [dropOldest, estimate]
  | cons e rest ih =>
    unfold dropOldest
    split
    · rename_i h
      exact h
    · exact ih

theorem estimate_filter_le (p : ContextEntry → Bool) (l : List ContextEntry) :
    estimate (l.filter p) ≤ estimate l := by
  induction l with
  | nil => simp
  | cons e rest ih =>
    rw [List.filter_cons]
    split
    · show estimate (e :: rest.filter p) ≤ estimate (e :: rest)
      unfold estimate at *
      simp only [List.map_cons, List.sum_cons]
      omega
    · unfold estimate at *
      simp only [List.map_cons, List.sum_cons]
      omega

theorem hasRequest_iff (c : Nat) (l : List ContextEntry) :
    hasRequest c l = true ↔ ∃ t, ContextEntry.action_request c t ∈ l := by
  unfold hasRequest
  rw [List.any_eq_true]
  constructor
  · rintro ⟨x, hx, hfx⟩
    cases x with
    | action_request c' t =>
      simp only [beq_iff_eq] at hfx
      subst hfx
      exact ⟨t, hx⟩
    | message p t s => simp at hfx
    | action_result c' t => simp at hfx
  · rintro ⟨t, ht⟩
    exact ⟨ContextEntry.action_request c t, ht, by simp⟩

theorem hasResult_iff (c : Nat) (l : List ContextEntry) :
    hasResult c l = true ↔ ∃ t, ContextEntry.action_result c t ∈ l := by
  unfold hasResult
  rw [List.any_eq_true]
  constructor
  · rintro ⟨x, hx, hfx⟩
    cases x with
    | action_result c' t =>
      simp only [beq_iff_eq] at hfx
      subst hfx
      exact ⟨t, hx⟩
    | message p t s => simp at hfx
    | action_request c' t => simp at hfx
  · rintro ⟨t, ht⟩
    exact ⟨ContextEntry.action_result c t, ht, by simp⟩

theorem passive_keep_partner (ceiling target : Nat)
    (buf : List ContextEntry) {c : Nat} {x y : ContextEntry}
    (hx : x ∈ passiveCompress ceiling target buf)
    (hcx : callIdOf x = some c) (hy : y ∈ buf)
    (hcy : callIdOf y = some c) :
    y ∈ passiveCompress ceiling target buf := by
  by_cases hle : estimate buf ≤ ceiling
  · simpa [passiveCompress, hle] using hy
  · simp only [passiveCompress, if_neg hle] at hx ⊢
    rcases List.mem_filter.mp hx with ⟨hxk, hxp⟩
    have hnotin : c ∉ callIds (dropOldest target buf).1 := by
      intro hmem
      rw [hcx] at hxp
      simp only [Bool.not_eq_true'] at hxp
      rw [List.contains_eq_any_beq, List.any_eq_false] at hxp
      exact absurd (by simp : (c == c) = true) (hxp c hmem)
    have hysplit : y ∈ (dropOldest target buf).1 ∨
        y ∈ (dropOldest target buf).2 := by
      rw [← List.mem_append, dropOldest_append]
      exact hy
    rcases hysplit with hyev | hyk
    · exact absurd (List.mem_filterMap.mpr ⟨y, hyev, hcy⟩) hnotin
    · apply List.mem_filter.mpr
      refine ⟨hyk, ?_⟩
      show (match callIdOf y with
        | some c' => !(callIds (dropOldest target buf).1).contains c'
        | none => true) = true
      rw [hcy]
      simp only [Bool.not_eq_true']
      rw [List.contains_eq_any_beq, List.any_eq_false]
      intro z hz hzc
      simp only [beq_iff_eq] at hzc
      exact hnotin (by rw [hzc]; exact hz)

/-- C4: passive compression triggers only above the ceiling (hysteresis:
at or below it the buffer is untouched); when it triggers it evicts
oldest-first until the estimate is at or below the target; the surviving
buffer is an in-order sub-sequence of the original; and it never leaves
an orphaned half of a request/result pair — if one member of a pair
survives and its partner was present, the partner survives too. -/
theorem passive_compression_no_orphan :
    ∀ (ceiling target : Nat) (buf : List ContextEntry),
      (estimate buf ≤ ceiling → passiveCompress ceiling target buf = buf) ∧
      (estimate buf > ceiling →
        estimate (passiveCompress ceiling target buf) ≤ target) ∧
      List.Sublist (passiveCompress ceiling target buf) buf ∧
      (∀ c : Nat,
        hasRequest c (passiveCompress ceiling target buf) = true →
        hasResult c buf = true →
        hasResult c (passiveCompress ceiling target buf) = true) ∧
      (∀ c : Nat,
        hasResult c (passiveCompress ceiling target buf) = true →
        hasRequest c buf = true →
        hasRequest c (passiveCompress ceiling target buf) = true) := by
  intro ceiling target buf
  refine ⟨?_, ?_, ?_, ?_, ?_⟩
  · intro hle
    simp [passiveCompress, hle]
  · intro hgt
    have hle : ¬ estimate buf ≤ ceiling := by omega
    simp only [passiveCompress, if_neg hle]
    exact le_trans
      (estimate_filter_le _ (dropOldest target buf).2)
      (dropOldest_kept_le target buf)
  · by_cases hle : estimate buf ≤ ceiling
    · simp [passiveCompress, hle]
    · simp only [passiveCompress, if_neg hle]
      refine List.Sublist.trans (List.filter_sublist _) ?_
      have h2 : List.Sublist (dropOldest target buf).2
          ((dropOldest target buf).1 ++ (dropOldest target buf).2) :=
        List.sublist_append_right _ _
      rw [dropOldest_append target buf] at h2
      exact h2
  · intro c hreq hres
    rcases (hasRequest_iff c _).mp hreq with ⟨t, hmem⟩
    rcases (hasResult_iff c buf).mp hres with ⟨t', hy⟩
    exact (hasResult_iff c _).mpr ⟨t',
      passive_keep_partner ceiling target buf hmem rfl hy rfl⟩
  · intro c hres hreq
    rcases (hasResult_iff c _).mp hres with ⟨t, hmem⟩
    rcases (hasRequest_iff c buf).mp hreq with ⟨t', hy⟩
    exact (hasRequest_iff c _).mpr ⟨t',
      passive_keep_partner ceiling target buf hmem rfl hy rfl⟩

/-- Witness for C4 on a concrete over-ceiling buffer: eviction reaches
the target, and the surviving result keeps its surviving request. -/
theorem passive_compression_no_orphan_witness :
    estimate (passiveCompress 5 3
      [ContextEntry.action_request 9 3, ContextEntry.action_result 9 3,
       ContextEntry.message false 2 "x"]) ≤ 3 ∧
    hasResult 7 (passiveCompress 99 3
      [ContextEntry.action_request 7 1, ContextEntry.action_result 7 1])
      = true :=
  ⟨(passive_compression_no_orphan 5 3
      [ContextEntry.action_request 9 3, ContextEntry.action_result 9 3,
       ContextEntry.message false 2 "x"]).2.1 (by decide),
   (passive_compression_no_orphan 99 3
      [ContextEntry.action_request 7 1,
       ContextEntry.action_result 7 1]).2.2.2.1 7 (by decide) (by decide)⟩

/-- C5: `dispatch` is total — every outcome is a structured Result: an
unknown action name yields an UnknownTool Result with the handler not
invoked, a schema-validation failure yields a ValidationError Result
with the handler not invoked, a handler fault (modelled as
`Except.error`) is caught and becomes a HandlerError Result, and a
successful handler run becomes an ok Result. -/
theorem dispatch_structured :
    ∀ (tools : List ToolSpec) (name : String)
      (args : List (String × String)),
      (tools.find? (fun t => t.name == name) = none →
        dispatchTrace tools name args =
          (Result.err Err.UnknownTool name, false)) ∧
      (∀ t : ToolSpec, tools.find? (fun t => t.name == name) = some t →
        validateArgs t args = false →
        dispatchTrace tools name args =
          (Result.err Err.ValidationError name, false)) ∧
      (∀ (t : ToolSpec) (msg : String),
        tools.find? (fun t => t.name == name) = some t →
        validateArgs t args = true →
        t.handler args = Except.error msg →
        dispatchTrace tools name args =
          (Result.err Err.HandlerError msg, true)) ∧
      (∀ (t : ToolSpec) (out : String),
        tools.find? (fun t => t.name == name) = some t →
        validateArgs t args = true →
        t.handler args = Except.ok out →
        dispatchTrace tools name args = (Result.ok out, true)) := by
  intro tools name args
  refine ⟨?_, ?_, ?_, ?_⟩
  · intro hfind
    unfold dispatchTrace
    rw [hfind]
  · intro t hfind hval
    unfold dispatchTrace
    rw [hfind]
    simp [hval]
  · intro t msg hfind hval hh
    unfold dispatchTrace
    rw [hfind]
    simp [hval, hh]
  · intro t out hfind hval hh
    unfold dispatchTrace
    rw [hfind]
    simp [hval, hh]

/-- Witness for C5 at concrete registries: unknown tool, failed
validation, and a faulting handler. -/
theorem dispatch_structured_witness :
    dispatchTrace demoTools "zzz" [] =
      (Result.err Err.UnknownTool "zzz", false) ∧
    dispatchTrace [⟨"c", ["x"], fun _ => Except.ok "rc"⟩] "c" [] =
      (Result.err Err.ValidationError "c", false) ∧
    dispatchTrace [⟨"d", [], fun _ => Except.error "boom"⟩] "d" [] =
      (Result.err Err.HandlerError "boom", true) :=
  ⟨(dispatch_structured demoTools "zzz" []).1 (by rfl),
   (dispatch_structured [⟨"c", ["x"], fun _ => Except.ok "rc"⟩] "c" []).2.1
     ⟨"c", ["x"], fun _ => Except.ok "rc"⟩ (by rfl) (by rfl),
   (dispatch_structured [⟨"d", [], fun _ => Except.error "boom"⟩] "d" []).2.2.1
     ⟨"d", [], fun _ => Except.error "boom"⟩ "boom"
     (by rfl) (by rfl) (by rfl)⟩

/-- C8: active compression is atomic — on a successful summarization
call the whole buffer is replaced by the pinned preamble plus exactly
one synthetic summary entry; on failure the buffer is left unchanged and
the failure is returned as an ordinary action-error Result rather than
raised. -/
theorem active_compression_atomic :
    ∀ (summarize : List ContextEntry → Except String String)
      (buf : List ContextEntry),
      (∀ summary : String, summarize buf = Except.ok summary →
        activeCompress summarize buf =
          (buf.filter isPinned ++
            [ContextEntry.message false (tokenCount summary) summary],
           Result.ok summary)) ∧
      (∀ msg : String, summarize buf = Except.error msg →
        activeCompress summarize buf =
          (buf, Result.err Err.EngineError msg)) := by
  intro summarize buf
  constructor
  · intro summary h
    unfold activeCompress
    rw [h]
  · intro msg h
    unfold activeCompress
    rw [h]

/-- Witness for C8: a succeeding and a failing summarizer on a concrete
buffer. -/
theorem active_compression_atomic_witness :
    activeCompress (fun _ => Except.ok "sum")
      [ContextEntry.message true 2 "pin", ContextEntry.message false 4 "t"] =
      ([ContextEntry.message true 2 "pin",
        ContextEntry.message false 3 "sum"], Result.ok "sum") ∧
    activeCompress (fun _ => Except.error "down")
      [ContextEntry.message false 4 "t"] =
      ([ContextEntry.message false 4 "t"],
       Result.err Err.EngineError "down") := by
  constructor
  · have h := (active_compression_atomic (fun _ => Except.ok "sum")
      [ContextEntry.message true 2 "pin",
       ContextEntry.message false 4 "t"]).1 "sum" (by rfl)
    rw [h]
    rfl
  · exact (active_compression_atomic (fun _ => Except.error "down")
      [ContextEntry.message false 4 "t"]).2 "down" (by rfl)

theorem numField_mem (lo hi dflt : ℚ) (x : Option JValue)
    (h1 : lo ≤ dflt) (h2 : dflt ≤ hi) :
    lo ≤ numField lo hi dflt x ∧ numField lo hi dflt x ≤ hi := by
  unfold numField
  split
  · split
    · rename_i hq
      exact ⟨hq.1, hq.2⟩
    · exact ⟨h1, h2⟩
  · exact ⟨h1, h2⟩

theorem live2d_valid (d : Option JValue) :
    validModels.contains (validateLive2DSettings d).model = true ∧
    1/2 ≤ (validateLive2DSettings d).modelScale ∧
    (validateLive2DSettings d).modelScale ≤ 2 ∧
    -(1/2) ≤ (validateLive2DSettings d).positionX ∧
    (validateLive2DSettings d).positionX ≤ 1/2 ∧
    -(1/2) ≤ (validateLive2DSettings d).positionY ∧
    (validateLive2DSettings d).positionY ≤ 1/2 := by
  cases d with
  | none =>
    simp only [validateLive2DSettings]
    refine ⟨by decide, by norm_num [defaultSettings],
      by norm_num [defaultSettings], by norm_num [defaultSettings],
      by norm_num [defaultSettings], by norm_num [defaultSettings],
      by norm_num [defaultSettings]⟩
  | some v =>
    simp only [validateLive2DSettings]
    by_cases ho : jsObjectLike v = true
    · rw [if_pos ho]
      have hs := numField_mem (1/2) 2 1
        (jget v "modelScale") (by norm_num) (by norm_num)
      have hx := numField_mem (-(1/2)) (1/2) 0
        (jget v "positionX") (by norm_num) (by norm_num)
      have hy := numField_mem (-(1/2)) (1/2) 0
        (jget v "positionY") (by norm_num) (by norm_num)
      refine ⟨?_, hs.1, hs.2, hx.1, hx.2, hy.1, hy.2⟩
      show validModels.contains (match jget v "model" with
        | some (JValue.str s) =>
            if validModels.contains s then s else "xiaomai"
        | _ => "xiaomai") = true
      split
      · split
        · rename_i hc
          exact hc
        · decide
      · decide
    · rw [if_neg ho]
      refine ⟨by decide, by norm_num [defaultSettings],
        by norm_num [defaultSettings], by norm_num [defaultSettings],
        by norm_num [defaultSettings], by norm_num [defaultSettings],
        by norm_num [defaultSettings]⟩

theorem audio_settings_valid (d : Option JValue) :
    0 ≤ (validateAudioSettings d).ttsVolume ∧
    (validateAudioSettings d).ttsVolume ≤ 1 ∧
    0 ≤ (validateAudioSettings d).micSensitivity ∧
    (validateAudioSettings d).micSensitivity ≤ 1 := by
  cases d with
  | none =>
    simp only [validateAudioSettings]
    refine ⟨by norm_num [defaultSettings],
      by norm_num [defaultSettings], by norm_num [defaultSettings],
      by norm_num [defaultSettings]⟩
  | some v =>
    simp only [validateAudioSettings]
    by_cases ho : jsObjectLike v = true
    · rw [if_pos ho]
      have ht := numField_mem 0 1 (4/5)
        (jget v "ttsVolume") (by norm_num) (by norm_num)
      have hm := numField_mem 0 1 (7/10)
        (jget v "micSensitivity") (by norm_num) (by norm_num)
      exact ⟨ht.1, ht.2, hm.1, hm.2⟩
    · rw [if_neg ho]
      refine ⟨by norm_num [defaultSettings],
        by norm_num [defaultSettings], by norm_num [defaultSettings],
        by norm_num [defaultSettings]⟩

/-- C9: for every possible persisted settings value — missing item,
unparsable JSON, wrong-typed or out-of-range fields — `loadSettings`
returns a fully populated `AppSettings` whose every constrained field is
within its documented range (the enum and boolean fields are valid by
construction), with invalid fields replaced by their defaults; being a
total function of the modelled parse outcome, it never throws. The two
concrete conjuncts show an out-of-range `modelScale` falling back to the
full defaults, and a mixed blob keeping its valid field while the
invalid one is defaulted. -/
theorem settingsValid_default : settingsValid defaultSettings := by
  norm_num [settingsValid, defaultSettings, validModels]

theorem loadSettings_safe :
    (∀ raw : Option (Option JValue), settingsValid (loadSettings raw)) ∧
    loadSettings (some (some (JValue.obj [("live2d",
      JValue.obj [("modelScale", JValue.num 99)])]))) = defaultSettings ∧
    (loadSettings (some (some (JValue.obj [("live2d", JValue.obj
      [("modelScale", JValue.num (3/2)),
       ("positionX", JValue.num 7)])])))).live2d.modelScale = 3/2 ∧
    (loadSettings (some (some (JValue.obj [("live2d", JValue.obj
      [("modelScale", JValue.num (3/2)),
       ("positionX", JValue.num 7)])])))).live2d.positionX = 0 := by
  refine ⟨?_, ?_, ?_, ?_⟩
  · intro raw
    cases raw with
    | none => exact settingsValid_default
    | some o =>
      cases o with
      | none => exact settingsValid_default
      | some v =>
        simp only [loadSettings]
        split
        · have hl := live2d_valid (jget v "live2d")
          have ha := audio_settings_valid (jget v "audio")
          exact ⟨hl.1, hl.2.1, hl.2.2.1, hl.2.2.2.1, hl.2.2.2.2.1,
            hl.2.2.2.2.2.1, hl.2.2.2.2.2.2, ha.1, ha.2.1, ha.2.2.1, ha.2.2.2⟩
        · exact settingsValid_default
  · simp [loadSettings, validateLive2DSettings, validateAudioSettings,
      validateGeneralSettings, validateAdvancedSettings, jget, jsObjectLike,
      numField, boolField, validModels, defaultSettings, List.lookup]
    norm_num
  · simp [loadSettings, validateLive2DSettings, jget, jsObjectLike,
      numField, boolField, validModels, List.lookup]
    norm_num
  · simp [loadSettings, validateLive2DSettings, jget, jsObjectLike,
      numField, boolField, validModels, List.lookup]
    norm_num

/-- C10: every `updateLipSync` step keeps the mouth parameter within
[0, 1] (it moves 30% toward the clamped target `min(average/100, 1)` and
then clamps); and `stop()` resets the mouth parameter to exactly 0,
clears `isPlaying`, and invokes the `onMouthParamChange` callback
with 0. -/
theorem audio_lipsync_safe :
    (∀ (st : AudioState) (freqData : List Nat) (frame : Nat),
       0 ≤ st.mouthParam → st.mouthParam ≤ 1 →
       0 ≤ (updateLipSync st freqData frame).1.mouthParam ∧
       (updateLipSync st freqData frame).1.mouthParam ≤ 1) ∧
    (∀ st : AudioState,
       (audioStop st).1.mouthParam = 0 ∧
       (audioStop st).1.isPlaying = false ∧
       (audioStop st).2 = [0]) := by
  constructor
  · intro st freqData frame h0 h1
    unfold updateLipSync
    split
    · constructor
      · exact le_max_left 0 _
      · exact max_le (by norm_num) (min_le_left 1 _)
    · exact ⟨h0, h1⟩
  · intro st
    exact ⟨rfl, rfl, rfl⟩

/-- Witness for C10's lip-sync step at a concrete playing state. -/
theorem audio_lipsync_safe_witness :
    0 ≤ (updateLipSync ⟨0, true, none, false, true⟩ [200, 200] 1).1.mouthParam ∧
    (updateLipSync ⟨0, true, none, false, true⟩ [200, 200] 1).1.mouthParam ≤ 1 :=
  audio_lipsync_safe.1 ⟨0, true, none, false, true⟩ [200, 200] 1
    (by norm_num) (by norm_num)

end Nakari
